import Mathlib

/-!
Shallow embedding of `MouseViewParser/readers/gorilla.py`.

Modelling conventions, chosen once for the whole file:

* A cell value is modelled as a `String` (the `str()` of the raw cell).
  Python's `float(v)` cast is modelled by `pyFloat`, which keeps the string
  but may fail; no claim below depends on the exact acceptance boundary of
  Python's float parser, only on the casts happening (or failing) in the
  places the source puts them.
* A delimited or spreadsheet file is a `List (List String)`: the first row
  is the header, the rest are data rows.  The CSV tokenizer, the dialect
  sniffing, the openpyxl cell reader and all path / extension checks on the
  top-level input file are external collaborators and are not embedded; the
  embedding starts from the record stream they produce.
* A directory is a `List (String × List (List String))` of (file name,
  file rows) pairs; `os.path.isfile` for a referenced trial file is
  membership in that list, `os.listdir` is the list of names.
* Python dicts are insertion-ordered association lists (`dictSet` replaces
  in place, otherwise appends, exactly like dict assignment).
* Exceptions are the `PyErr` inductive; raising is `Except.error`, and an
  uncaught exception propagates out of `read_file` / `read_folder` exactly
  as in the source (there is no try/except anywhere in the file).
* `numpy.array(xs, dtype=...)` applied in the final conversion loops acts on
  lists whose elements were already cast by `float` during parsing; it is
  shape- and content-preserving there, and is modelled by `npArray`.
-/

namespace Gorilla

/-- Exceptions raised by the source, with the values interpolated into the
Python message carried as payload fields. -/
inductive PyErr where
  /-- `next(reader)` on a file with no rows. -/
  | stopIteration : PyErr
  /-- `list.index(x)` when `x` is absent (ValueError). -/
  | indexNotFound : String → PyErr
  /-- the explicit raise for a custom field missing from the header. -/
  | missingCustomField : String → PyErr
  /-- `float(s)` on a non-numeric string (ValueError). -/
  | castFailure : String → PyErr
  /-- reading a local variable before any assignment (UnboundLocalError). -/
  | unboundLocal : String → PyErr
  /-- the explicit raise at gorilla.py:166: file name, the participant the
  index row lists the file for, and the id the file itself reports. -/
  | identityMismatch : String → String → String → PyErr
  deriving DecidableEq, Repr

instance exceptDecEq {ε α : Type} [DecidableEq ε] [DecidableEq α] :
    DecidableEq (Except ε α) := fun x y =>
  match x, y with
  | .ok a, .ok b =>
    match decEq a b with
    | isTrue h => isTrue (by rw [h])
    | isFalse h => isFalse (by intro hh; cases hh; exact h rfl)
  | .error a, .error b =>
    match decEq a b with
    | isTrue h => isTrue (by rw [h])
    | isFalse h => isFalse (by intro hh; cases hh; exact h rfl)
  | .ok _, .error _ => isFalse (by intro hh; cases hh)
  | .error _, .ok _ => isFalse (by intro hh; cases hh)

/-- Characters admitted by the abstraction of Python's float parser. -/
def isFloatChar (c : Char) : Bool :=
  c.isDigit || c = '.' || c = '-' || c = '+' || c = 'e' || c = 'E'

/-- Abstraction of Python's `float(s)`: succeeds on numeric-looking strings
(returning the string itself as the model of the resulting float) and raises
ValueError otherwise.  The claims below never depend on where exactly the
acceptance boundary lies, only on success and failure both being possible. -/
def pyFloat (s : String) : Except PyErr String :=
  if s ≠ "" && s.data.all isFloatChar then .ok s else .error (.castFailure s)

/-- Python's slice `s[:n]` (character-based, like Python string slicing). -/
def pyTake (s : String) (n : Nat) : String :=
  ⟨s.data.take n⟩

/-- Python's `str.lower()` (character-based; the extensions compared here
are ASCII). -/
def pyLower (s : String) : String :=
  ⟨s.data.map Char.toLower⟩

/-- `row[i]`: the indices used by the source are always resolved from the
header and every indexed row has passed the length-equals-header check, so
the default is unreachable in every execution modelled here. -/
def cell (row : List String) (i : Nat) : String :=
  row.getD i ""

/-- `header.index(col)`: first position of `col`, ValueError when absent. -/
def pyIndex (header : List String) (col : String) : Except PyErr Nat :=
  match header.findIdx? (fun c => c = col) with
  | some i => .ok i
  | none => .error (.indexNotFound col)

/-- `str()` of the parsed per-trial participant value, which is `None` when
the per-trial file had no valid data row. -/
def pyStr : Option String → String
  | none => "None"
  | some s => s

/-- The `for` loop over rows: run `step` over the rows in order, an
exception aborting the whole loop. -/
def runRows {σ α : Type} (step : σ → α → Except PyErr σ) : σ → List α → Except PyErr σ
  | st, [] => .ok st
  | st, r :: rs =>
    match step st r with
    | .ok st' => runRows step st' rs
    | .error e => .error e

/-- A trial structure: message pairs plus the three parallel sample lists
(`time`, `x`, `y`), as built by the source's trial dicts. -/
structure Trial where
  msg : List (String × String) := []
  time : List String := []
  x : List String := []
  y : List String := []
  deriving DecidableEq, Repr

/-- The empty trial used both as the parser's accumulator start and as the
synthesized trial for a missing referenced file. -/
def emptyTrial : Trial := {}

/-! ## read_single_trial_file (gorilla.py lines 262-349) -/

/-- Column positions resolved once from a per-trial file's header. -/
structure STIdx where
  iparticipant : Nat
  itype : Nat
  izone : Nat
  ihor : Nat
  iver : Nat
  iwidth : Nat
  iheight : Nat
  itime : Nat
  ix : Nat
  iy : Nat
  deriving DecidableEq, Repr

/-- Header resolution of `read_single_trial_file`, in source order. -/
def stResolve (header : List String) : Except PyErr STIdx :=
  match pyIndex header "participant_id" with
  | .error e => .error e
  | .ok iparticipant =>
  match pyIndex header "type" with
  | .error e => .error e
  | .ok itype =>
  match pyIndex header "zone_name" with
  | .error e => .error e
  | .ok izone =>
  match pyIndex header "zone_x" with
  | .error e => .error e
  | .ok ihor =>
  match pyIndex header "zone_y" with
  | .error e => .error e
  | .ok iver =>
  match pyIndex header "zone_width" with
  | .error e => .error e
  | .ok iwidth =>
  match pyIndex header "zone_height" with
  | .error e => .error e
  | .ok iheight =>
  match pyIndex header "time_stamp" with
  | .error e => .error e
  | .ok itime =>
  match pyIndex header "x" with
  | .error e => .error e
  | .ok ix =>
  match pyIndex header "y" with
  | .error e => .error e
  | .ok iy =>
  .ok { iparticipant, itype, izone, ihor, iver, iwidth, iheight, itime, ix, iy }

/-- Loop state of `read_single_trial_file`: the participant id taken from
the first valid data row, the viewport, and the trial being accumulated. -/
structure STState where
  participant : Option String := none
  viewport : Option String := none
  trial : Trial := {}
  deriving DecidableEq, Repr

/-- The message descriptor string built for non-coordinate rows
(gorilla.py lines 331-335). -/
def descriptor (ix : STIdx) (row : List String) : String :=
  "type=" ++ cell row ix.itype ++ ";zone=" ++ cell row ix.izone ++
  ";zone_x=" ++ cell row ix.ihor ++ ";zone_y=" ++ cell row ix.iver ++
  ";zone_w=" ++ cell row ix.iwidth ++ ";zone_h=" ++ cell row ix.iheight

/-- One data row of `read_single_trial_file` (gorilla.py lines 305-347).
In the coordinate branch the source appends `float(time)` before casting
`x` and `y`; a failing later cast propagates and discards the whole parse,
so casting all three before appending is observationally identical. -/
def stStep (lenH : Nat) (ix : STIdx) (st : STState) (row : List String) :
    Except PyErr STState :=
  if row.length ≠ lenH then .ok st
  else
    let st := if st.participant = none then
        { st with participant := some (cell row ix.iparticipant) }
      else st
    if cell row ix.itype = "mouseview" then
      match pyFloat (cell row ix.itime), pyFloat (cell row ix.ix), pyFloat (cell row ix.iy) with
      | .error e, _, _ => .error e
      | .ok _, .error e, _ => .error e
      | .ok _, .ok _, .error e => .error e
      | .ok t, .ok xv, .ok yv =>
        .ok { st with trial :=
          { st.trial with
            time := st.trial.time ++ [t]
            x := st.trial.x ++ [xv]
            y := st.trial.y ++ [yv] } }
    else
      match pyFloat (cell row ix.itime) with
      | .error e => .error e
      | .ok t =>
        let st := { st with trial :=
          { st.trial with msg := st.trial.msg ++ [(t, descriptor ix row)] } }
        if cell row ix.itype = "zone" && cell row ix.izone = "screen" then
          let vp := cell row ix.iwidth ++ "x" ++ cell row ix.iheight
          .ok { st with viewport := some vp }
        else
          .ok st

/-- `read_single_trial_file`: returns (participant id of the first valid
data row, viewport, trial).  An empty sheet runs the loop zero times and
returns the initial values, as in the source. -/
def read_single_trial_file (rows : List (List String)) :
    Except PyErr (Option String × Option String × Trial) :=
  match rows with
  | [] => .ok (none, none, emptyTrial)
  | header :: body =>
    match stResolve header with
    | .error e => .error e
    | .ok ix =>
      match runRows (stStep header.length ix) {} body with
      | .error e => .error e
      | .ok st => .ok (st.participant, st.viewport, st.trial)

/-! ## Python dicts as insertion-ordered association lists -/

/-- `d[k]` lookup (None when absent, standing for KeyError never being hit
at the source's call sites). -/
def dictGet? {K V : Type} [DecidableEq K] (m : List (K × V)) (k : K) : Option V :=
  (m.find? (fun kv => kv.1 = k)).map (fun kv => kv.2)

/-- `d[k] = v`: replace in place when the key exists (a Python dict keeps
the original insertion position; keys are unique, so replacing the first
occurrence is dict assignment), append otherwise. -/
def dictSet {K V : Type} [DecidableEq K] : List (K × V) → K → V → List (K × V)
  | [], k, v => [(k, v)]
  | a :: m, k, v => if a.1 = k then (k, v) :: m else a :: dictSet m k v

/-- In-place mutation of the value under an existing key, used for
`d[k]["trials"].append(...)`; every call site has just ensured the key is
present, so the no-op on an absent key is unreachable. -/
def dictModify {K V : Type} [DecidableEq K] (m : List (K × V)) (k : K) (f : V → V) :
    List (K × V) :=
  m.map (fun kv => if kv.1 = k then (kv.1, f kv.2) else kv)

/-- `numpy.array(xs, dtype=...)` in the final conversion loops: the lists it
receives hold values already cast by `float` during parsing, so the
conversion is shape- and content-preserving; numeric representation is not
modelled. -/
def npArray (l : List String) : List String := l

/-- The final conversion loop body applied to one trial (lines 174-179 and
252-257 of the source). -/
def normalizeTrial (t : Trial) : Trial :=
  { t with time := npArray t.time, x := npArray t.x, y := npArray t.y }

/-! ## read_folder (gorilla.py lines 184-259) -/

/-- `os.path.splitext`: split at the last dot of the base name, except that
a name consisting only of leading dots plus no later dot has no extension. -/
def splitExt (fname : String) : String × String :=
  let chars := fname.toList
  let n := chars.length
  match (List.range n).filter (fun i => chars.getD i ' ' = '.' ∧ 0 < i) |>.getLast? with
  | some i => (⟨chars.take i⟩, ⟨chars.drop i⟩)
  | none => (fname, "")

/-- Lock-file test of line 216: the split-off name starts with the two
characters tilde dollar. -/
def isLock (fname : String) : Bool :=
  pyTake (splitExt fname).1 2 = "~$"

/-- Extension test of lines 219-220. -/
def okExt (fname : String) : Bool :=
  pyLower (splitExt fname).2 = ".xls" || pyLower (splitExt fname).2 = ".xlsx"

/-- A participant entry built by `read_folder` (lines 237-241).  The key
under which it is stored is the parsed participant value, which is an
`Option String` because a file without valid data rows reports `None` (a
legal Python dict key). -/
structure FolderEntry where
  trials : List Trial := []
  resolution : Option String := none
  viewport : Option String := none
  deriving DecidableEq, Repr

/-- The viewport/resolution fill of lines 243-247: both fields are set
together from the parsed viewport while the stored viewport is still None. -/
def fillEntry (viewport : Option String) (e : FolderEntry) : FolderEntry :=
  if e.viewport = none then { e with viewport := viewport, resolution := viewport }
  else e

/-- The trial append of line 250. -/
def appendEntry (trial : Trial) (e : FolderEntry) : FolderEntry :=
  { e with trials := e.trials ++ [trial] }

/-- The data-dict update of `read_folder` for one parsed file (lines
234-250): create the entry on first sight, fill viewport and resolution,
append the trial. -/
def rfUpdate (data : List (Option String × FolderEntry)) (p : Option String)
    (viewport : Option String) (trial : Trial) :
    List (Option String × FolderEntry) :=
  let data := if (dictGet? data p).isSome then data else dictSet data p {}
  dictModify (dictModify data p (fillEntry viewport)) p (appendEntry trial)

/-- One file of the `read_folder` loop (lines 208-250): skip lock files and
wrong extensions, parse, update the data dict. -/
def rfStep (data : List (Option String × FolderEntry))
    (file : String × List (List String)) :
    Except PyErr (List (Option String × FolderEntry)) :=
  if isLock file.1 then .ok data
  else if !okExt file.1 then .ok data
  else
    match read_single_trial_file file.2 with
    | .error e => .error e
    | .ok r => .ok (rfUpdate data r.1 r.2.1 r.2.2)

/-- Python's string `<` (lexicographic by code point) on character lists. -/
def lexLt : List Char → List Char → Bool
  | [], [] => false
  | [], _ :: _ => true
  | _ :: _, [] => false
  | a :: as, b :: bs =>
    if a.toNat < b.toNat then true
    else if b.toNat < a.toNat then false
    else lexLt as bs

/-- File-name comparison used for `all_files.sort()`: Python sorts the name
strings ascending by the lexicographic code-point order, so `a` may come
before `b` exactly when `b` is not strictly smaller. -/
def nameLe (a b : String × List (List String)) : Bool :=
  !(lexLt b.1.data a.1.data)

/-- `read_folder`: sort the directory listing by file name, run the file
loop, then run the final conversion loop over every trial.  Directory
listings have pairwise-distinct names, so sorting the (name, rows) pairs by
name models sorting the names and reading each file. -/
def read_folder (files : List (String × List (List String))) :
    Except PyErr (List (Option String × FolderEntry)) :=
  match runRows rfStep [] (files.mergeSort nameLe) with
  | .error e => .error e
  | .ok st =>
    .ok (st.map (fun kv => (kv.1, { kv.2 with trials := kv.2.trials.map normalizeTrial })))

/-! ## read_file (gorilla.py lines 32-181) -/

/-- Column positions resolved from the consolidated table's header
(lines 70-80), in source order; `iparticipant` aliases the public or the
private column according to `use_public_id`. -/
structure RFIdx where
  ipublic : Nat
  iprivate : Nat
  iparticipant : Nat
  iresolution : Nat
  iviewport : Nat
  itrial : Nat
  izone : Nat
  iresp : Nat
  deriving DecidableEq, Repr

/-- Header resolution of `read_file`. -/
def rfResolve (header : List String) (use_public_id : Bool) : Except PyErr RFIdx :=
  match pyIndex header "Participant Public ID" with
  | .error e => .error e
  | .ok ipublic =>
  match pyIndex header "Participant Private ID" with
  | .error e => .error e
  | .ok iprivate =>
  let iparticipant := if use_public_id then ipublic else iprivate
  match pyIndex header "Participant Monitor Size" with
  | .error e => .error e
  | .ok iresolution =>
  match pyIndex header "Participant Viewport Size" with
  | .error e => .error e
  | .ok iviewport =>
  match pyIndex header "Trial Number" with
  | .error e => .error e
  | .ok itrial =>
  match pyIndex header "Zone Type" with
  | .error e => .error e
  | .ok izone =>
  match pyIndex header "Response" with
  | .error e => .error e
  | .ok iresp =>
  .ok { ipublic, iprivate, iparticipant, iresolution, iviewport, itrial, izone, iresp }

/-- Custom-field resolution (lines 82-91): a requested field absent from
the header is a hard error, otherwise its first header position is kept,
iterated in the requested order. -/
def resolveCustomFields (header : List String) : List String →
    Except PyErr (List (String × Nat))
  | [] => .ok []
  | f :: fs =>
    match header.findIdx? (fun c => c = f) with
    | some i =>
      match resolveCustomFields header fs with
      | .ok rest => .ok ((f, i) :: rest)
      | .error e => .error e
    | none => .error (.missingCustomField f)

/-- A participant entry built by `read_file` (lines 112-118). -/
structure FileEntry where
  trials : List Trial := []
  resolution : String := ""
  viewport : String := ""
  public_id : String := ""
  private_id : String := ""
  deriving DecidableEq, Repr

/-- Loop state of `read_file`: the data dict, `current_participant`, and
the Python local variable `participant` of line 143, which is unbound
(outer `none`) until the first referenced file is actually read and
afterwards holds that file's possibly-None reported id. -/
structure RFState where
  data : List (String × FileEntry) := []
  current : Option String := none
  filePart : Option (Option String) := none
  deriving DecidableEq, Repr

/-- The custom-field loop of lines 157-159: for each requested field in
order, `insert(0, [field, value])` on the trial's message list. -/
def addCustomFields (ifields : List (String × Nat)) (line : List String)
    (t : Trial) : Trial :=
  { t with msg := ifields.foldl (fun m fi => (fi.1, cell line fi.2) :: m) t.msg }

/-- The trial append of line 172: `data[current_participant]["trials"]`
gets the trial appended. -/
def appendUnder (st : RFState) (key : String) (trial : Trial) : RFState :=
  let data := dictModify st.data key (fun e => { e with trials := e.trials ++ [trial] })
  { st with data := data }

/-- The identity double-check and append of lines 161-172, shared by the
file-found and file-missing branches (the source runs it unconditionally).
Reading `participant` before any file was read is an UnboundLocalError.
`key` is `current_participant`, which at this point always equals the
line's participant field. -/
def checkAndAppend (iprivate : Nat) (st : RFState) (line : List String)
    (fname key : String) (trial : Trial) : Except PyErr RFState :=
  match st.filePart with
  | none => .error (.unboundLocal "participant")
  | some p =>
    if pyStr p ≠ cell line iprivate then
      .error (.identityMismatch fname key (pyStr p))
    else
      .ok (appendUnder st key trial)

/-- The zone-type test of line 130: the row references a MouseView trial
file. -/
def isMouse (z : String) : Bool :=
  z = "mouse_view" || z = "mouseview" || z = "MouseView"

/-- The participant check of lines 108-121: when the line's participant
field differs from `current_participant`, open a fresh entry under that key
(replacing any existing entry for the key) and make it current. -/
def bookkeep (ix : RFIdx) (st : RFState) (line : List String) : RFState :=
  if some (cell line ix.iparticipant) ≠ st.current then
    { st with
      current := some (cell line ix.iparticipant)
      data := dictSet st.data (cell line ix.iparticipant)
        { trials := []
          resolution := cell line ix.iresolution
          viewport := cell line ix.iviewport
          public_id := cell line ix.ipublic
          private_id := cell line ix.iprivate } }
  else st

/-- One line of the `read_file` loop (lines 98-172). -/
def fStep (lenH : Nat) (ix : RFIdx) (ifields : List (String × Nat))
    (folder : List (String × List (List String)))
    (st : RFState) (line : List String) : Except PyErr RFState :=
  if line.length ≠ lenH then .ok st
  else
    let key := cell line ix.iparticipant
    let st := bookkeep ix st line
    if isMouse (cell line ix.izone) then
      if pyTake (cell line ix.iresp) 8 = "https://" then .ok st
      else
        let fname := cell line ix.iresp
        match folder.find? (fun nf => nf.1 = fname) with
        | some nf =>
          match read_single_trial_file nf.2 with
          | .error e => .error e
          | .ok r =>
            let st := { st with filePart := some r.1 }
            let trial := addCustomFields ifields line r.2.2
            checkAndAppend ix.iprivate st line fname key trial
        | none =>
          let trial := addCustomFields ifields line emptyTrial
          checkAndAppend ix.iprivate st line fname key trial
    else
      .ok st

/-- `read_file`: header resolution, custom-field resolution, the line loop,
then the final conversion loop.  The file-existence, extension and dialect
layers in front of the CSV reader are external and not embedded; an input
with no rows at all makes `next(reader)` raise StopIteration. -/
def read_file (rows : List (List String))
    (folder : List (String × List (List String)))
    (custom_fields : List String) (use_public_id : Bool) :
    Except PyErr (List (String × FileEntry)) :=
  match rows with
  | [] => .error .stopIteration
  | header :: lines =>
    match rfResolve header use_public_id with
    | .error e => .error e
    | .ok ix =>
      match resolveCustomFields header custom_fields with
      | .error e => .error e
      | .ok ifields =>
        match runRows (fStep header.length ix ifields folder) {} lines with
        | .error e => .error e
        | .ok st =>
          .ok (st.data.map (fun kv =>
            (kv.1, { kv.2 with trials := kv.2.trials.map normalizeTrial })))

/-! ## Helper lemmas -/

theorem dictGet?_nil {K V : Type} [DecidableEq K] (k : K) :
    dictGet? ([] : List (K × V)) k = none := rfl

theorem dictGet?_cons {K V : Type} [DecidableEq K] (a : K × V) (m : List (K × V)) (k : K) :
    dictGet? (a :: m) k = if a.1 = k then some a.2 else dictGet? m k := by
  by_cases h : a.1 = k <;> simp [dictGet?, List.find?_cons, h]

theorem dictGet?_set {K V : Type} [DecidableEq K] (m : List (K × V)) (k : K) (v : V)
    (k' : K) :
    dictGet? (dictSet m k v) k' = if k = k' then some v else dictGet? m k' := by
  induction m with
  | nil =>
    by_cases h : k = k' <;> simp [dictSet, dictGet?_cons, dictGet?_nil, h]
  | cons a m ih =>
    show dictGet? (if a.1 = k then (k, v) :: m else a :: dictSet m k v) k' = _
    by_cases ha : a.1 = k
    · rw [if_pos ha, dictGet?_cons, dictGet?_cons]
      by_cases h : k = k'
      · simp [h]
      · have ha' : ¬ a.1 = k' := by rw [ha]; exact h
        simp [h, ha']
    · rw [if_neg ha, dictGet?_cons, ih, dictGet?_cons]
      by_cases ha' : a.1 = k'
      · have hk : ¬ k = k' := fun hh => ha (by rw [ha']; exact hh.symm)
        simp [ha', hk]
      · simp [ha']

theorem dictModify_cons {K V : Type} [DecidableEq K] (a : K × V) (m : List (K × V))
    (k : K) (f : V → V) :
    dictModify (a :: m) k f =
      (if a.1 = k then (a.1, f a.2) else a) :: dictModify m k f := rfl

theorem dictGet?_modify {K V : Type} [DecidableEq K] (m : List (K × V)) (k : K)
    (f : V → V) (k' : K) :
    dictGet? (dictModify m k f) k' =
      if k = k' then (dictGet? m k').map f else dictGet? m k' := by
  induction m with
  | nil =>
    by_cases h : k = k' <;> simp [dictModify, dictGet?_nil, h]
  | cons a m ih =>
    rw [dictModify_cons]
    by_cases ha : a.1 = k
    · rw [if_pos ha, dictGet?_cons, dictGet?_cons]
      by_cases h : k = k'
      · have ha' : a.1 = k' := by rw [ha]; exact h
        simp [ha', ih, h]
      · have ha' : ¬ a.1 = k' := by rw [ha]; exact h
        simp [ha', ih, h]
    · rw [if_neg ha, dictGet?_cons, dictGet?_cons, ih]
      by_cases ha' : a.1 = k'
      · have hk : ¬ k = k' := fun hh => ha (by rw [ha']; exact hh.symm)
        simp [ha', hk]
      · simp [ha']

theorem runRows_nil {σ α : Type} (step : σ → α → Except PyErr σ) (st : σ) :
    runRows step st [] = .ok st := rfl

theorem runRows_cons {σ α : Type} (step : σ → α → Except PyErr σ) (st : σ)
    (r : α) (rs : List α) :
    runRows step st (r :: rs) =
      match step st r with
      | .ok st' => runRows step st' rs
      | .error e => .error e := rfl

theorem runRows_append {σ α : Type} (step : σ → α → Except PyErr σ)
    (l₁ l₂ : List α) (st : σ) :
    runRows step st (l₁ ++ l₂) =
      match runRows step st l₁ with
      | .ok st' => runRows step st' l₂
      | .error e => .error e := by
  induction l₁ generalizing st with
  | nil => simp [runRows]
  | cons r rs ih =>
    rw [List.cons_append, runRows_cons, runRows_cons]
    cases step st r with
    | ok st' => exact ih st'
    | error e => rfl

theorem runRows_preserve {σ α : Type} (P : σ → Prop) (step : σ → α → Except PyErr σ)
    (hstep : ∀ s a s', step s a = .ok s' → P s → P s') :
    ∀ (l : List α) (s s' : σ), runRows step s l = .ok s' → P s → P s' := by
  intro l
  induction l with
  | nil =>
    intro s s' h hp
    rw [runRows_nil] at h
    cases h
    exact hp
  | cons r rs ih =>
    intro s s' h hp
    rw [runRows_cons] at h
    cases hr : step s r with
    | ok s₁ =>
      rw [hr] at h
      exact ih s₁ s' h (hstep s r s₁ hr hp)
    | error e => rw [hr] at h; cases h

theorem normalizeTrial_id (t : Trial) : normalizeTrial t = t := rfl

theorem map_normalizeTrial (l : List Trial) : l.map normalizeTrial = l := by
  induction l with
  | nil => rfl
  | cons a l ih => simp [ih, normalizeTrial_id]

theorem normalizeFolderData_id (d : List (Option String × FolderEntry)) :
    d.map (fun kv => (kv.1, { kv.2 with trials := kv.2.trials.map normalizeTrial })) = d := by
  induction d with
  | nil => rfl
  | cons a d ih => simp [ih, map_normalizeTrial]

theorem normalizeFileData_id (d : List (String × FileEntry)) :
    d.map (fun kv => (kv.1, { kv.2 with trials := kv.2.trials.map normalizeTrial })) = d := by
  induction d with
  | nil => rfl
  | cons a d ih => simp [ih, map_normalizeTrial]

/-! ## Equal-length invariant for the three sample sequences -/

/-- The three parallel sample sequences of a trial have equal lengths. -/
def eqLen (t : Trial) : Prop :=
  t.time.length = t.x.length ∧ t.y.length = t.x.length

theorem eqLen_empty : eqLen emptyTrial := ⟨rfl, rfl⟩

theorem stStep_eqLen {lenH : Nat} {ix : STIdx} {st : STState} {row : List String}
    {st' : STState} (h : stStep lenH ix st row = .ok st') (hp : eqLen st.trial) :
    eqLen st'.trial := by
  obtain ⟨h1, h2⟩ := hp
  simp only [stStep] at h
  split at h
  · cases h; exact ⟨h1, h2⟩
  · split at h
    · split at h
      · cases h
      · cases h
      · cases h
      · cases h
        refine ⟨?_, ?_⟩ <;> (split <;> simp [h1, h2])
    · split at h
      · cases h
      · split at h <;>
          (cases h; refine ⟨?_, ?_⟩ <;> (split <;> simp [h1, h2]))

theorem rstf_eqLen {rows : List (List String)}
    {r : Option String × Option String × Trial}
    (h : read_single_trial_file rows = .ok r) : eqLen r.2.2 := by
  cases rows with
  | nil =>
    simp only [read_single_trial_file] at h
    cases h
    exact eqLen_empty
  | cons header body =>
    simp only [read_single_trial_file] at h
    cases hres : stResolve header with
    | error e => simp only [hres] at h; cases h
    | ok ix =>
      simp only [hres] at h
      cases hrun : runRows (stStep header.length ix) {} body with
      | error e => simp only [hrun] at h; cases h
      | ok st =>
        simp only [hrun] at h
        cases h
        exact runRows_preserve (fun s => eqLen s.trial) _
          (fun s a s' hs hp => stStep_eqLen hs hp) body {} st hrun ⟨rfl, rfl⟩

theorem addCustomFields_eqLen {ifields : List (String × Nat)} {line : List String}
    {t : Trial} (h : eqLen t) : eqLen (addCustomFields ifields line t) := h

/-- Every trial stored in a `read_file` data dict has equal sample lengths. -/
def allEqLenF (d : List (String × FileEntry)) : Prop :=
  ∀ k e, dictGet? d k = some e → ∀ t, t ∈ e.trials → eqLen t

/-- Every trial stored in a `read_folder` data dict has equal sample lengths. -/
def allEqLenD (d : List (Option String × FolderEntry)) : Prop :=
  ∀ k e, dictGet? d k = some e → ∀ t, t ∈ e.trials → eqLen t

theorem allEqLenF_set_fresh {d : List (String × FileEntry)} {k : String}
    {v : FileEntry} (hd : allEqLenF d) (hv : v.trials = []) :
    allEqLenF (dictSet d k v) := by
  intro k' e he t ht
  rw [dictGet?_set] at he
  split at he
  · cases he; rw [hv] at ht; cases ht
  · exact hd k' e he t ht

theorem allEqLenF_modify_append {d : List (String × FileEntry)} {k : String}
    {trial : Trial} (hd : allEqLenF d) (ht : eqLen trial) :
    allEqLenF (dictModify d k (fun e => { e with trials := e.trials ++ [trial] })) := by
  intro k' e he t htm
  rw [dictGet?_modify] at he
  split at he
  · cases hg : dictGet? d k' with
    | none => rw [hg] at he; cases he
    | some e₀ =>
      rw [hg] at he
      cases he
      simp only [List.mem_append, List.mem_singleton] at htm
      cases htm with
      | inl hin => exact hd k' e₀ hg t hin
      | inr heq => cases heq; exact ht
  · exact hd k' e he t htm

theorem checkAndAppend_eqLen {iprivate : Nat} {st : RFState} {line : List String}
    {fname key : String} {trial : Trial} {st' : RFState}
    (h : checkAndAppend iprivate st line fname key trial = .ok st')
    (hd : allEqLenF st.data) (ht : eqLen trial) : allEqLenF st'.data := by
  simp only [checkAndAppend] at h
  cases hf : st.filePart with
  | none => simp only [hf] at h; cases h
  | some p =>
    simp only [hf] at h
    split at h
    · cases h
    · cases h
      simp only [appendUnder]
      exact allEqLenF_modify_append hd ht

theorem fStep_eqLen {lenH : Nat} {ix : RFIdx} {ifields : List (String × Nat)}
    {folder : List (String × List (List String))} {st : RFState}
    {line : List String} {st' : RFState}
    (h : fStep lenH ix ifields folder st line = .ok st')
    (hd : allEqLenF st.data) : allEqLenF st'.data := by
  have hd₁ : allEqLenF (bookkeep ix st line).data := by
    simp only [bookkeep]
    split
    · exact allEqLenF_set_fresh hd rfl
    · exact hd
  simp only [fStep] at h
  split at h
  · cases h; exact hd
  · split at h
    · split at h
      · cases h
        exact hd₁
      · cases hfind : folder.find? (fun nf => nf.1 = cell line ix.iresp) with
        | some nf =>
          simp only [hfind] at h
          cases hstf : read_single_trial_file nf.2 with
          | error e => simp only [hstf] at h; cases h
          | ok r =>
            simp only [hstf] at h
            refine checkAndAppend_eqLen h ?_ ?_
            · exact hd₁
            · exact addCustomFields_eqLen (rstf_eqLen hstf)
        | none =>
          simp only [hfind] at h
          refine checkAndAppend_eqLen h ?_ ?_
          · exact hd₁
          · exact addCustomFields_eqLen eqLen_empty
    · cases h
      exact hd₁

theorem allEqLenD_set_fresh {d : List (Option String × FolderEntry)} {k : Option String}
    {v : FolderEntry} (hd : allEqLenD d) (hv : v.trials = []) :
    allEqLenD (dictSet d k v) := by
  intro k' e he t ht
  rw [dictGet?_set] at he
  split at he
  · cases he; rw [hv] at ht; cases ht
  · exact hd k' e he t ht

theorem allEqLenD_modify_fill {d : List (Option String × FolderEntry)} {k : Option String}
    {v : Option String} (hd : allEqLenD d) :
    allEqLenD (dictModify d k (fillEntry v)) := by
  intro k' e he t ht
  rw [dictGet?_modify] at he
  split at he
  · cases hg : dictGet? d k' with
    | none => rw [hg] at he; cases he
    | some e₀ =>
      rw [hg] at he
      cases he
      simp only [fillEntry] at ht
      split at ht
      · exact hd k' e₀ hg t ht
      · exact hd k' e₀ hg t ht
  · exact hd k' e he t ht

theorem allEqLenD_modify_append {d : List (Option String × FolderEntry)}
    {k : Option String} {trial : Trial} (hd : allEqLenD d) (ht : eqLen trial) :
    allEqLenD (dictModify d k (appendEntry trial)) := by
  intro k' e he t htm
  rw [dictGet?_modify] at he
  split at he
  · cases hg : dictGet? d k' with
    | none => rw [hg] at he; cases he
    | some e₀ =>
      rw [hg] at he
      cases he
      simp only [appendEntry, List.mem_append, List.mem_singleton] at htm
      cases htm with
      | inl hin => exact hd k' e₀ hg t hin
      | inr heq => cases heq; exact ht
  · exact hd k' e he t htm

theorem rfUpdate_eqLen {data : List (Option String × FolderEntry)} {p : Option String}
    {vp : Option String} {trial : Trial} (hd : allEqLenD data) (ht : eqLen trial) :
    allEqLenD (rfUpdate data p vp trial) := by
  simp only [rfUpdate]
  refine allEqLenD_modify_append (allEqLenD_modify_fill ?_) ht
  split
  · exact hd
  · exact allEqLenD_set_fresh hd rfl

theorem rfStep_eqLen {data : List (Option String × FolderEntry)}
    {file : String × List (List String)} {data' : List (Option String × FolderEntry)}
    (h : rfStep data file = .ok data') (hd : allEqLenD data) : allEqLenD data' := by
  simp only [rfStep] at h
  split at h
  · cases h; exact hd
  · split at h
    · cases h; exact hd
    · cases hstf : read_single_trial_file file.2 with
      | error e => simp only [hstf] at h; cases h
      | ok r =>
        simp only [hstf] at h
        cases h
        exact rfUpdate_eqLen hd (rstf_eqLen hstf)

/-- C1: for every input accepted by `read_file` or `read_folder`, every
trial in the returned participant map has `time`, `x`, `y` sequences of
equal length after the final normalization pass. -/
theorem C1_sample_lengths_equal :
    (∀ rows folder cfs upid data, read_file rows folder cfs upid = .ok data →
      ∀ k e, dictGet? data k = some e → ∀ t, t ∈ e.trials → eqLen t) ∧
    (∀ files data, read_folder files = .ok data →
      ∀ k e, dictGet? data k = some e → ∀ t, t ∈ e.trials → eqLen t) := by
  constructor
  · intro rows folder cfs upid data h
    cases rows with
    | nil => simp only [read_file] at h; cases h
    | cons header lines =>
      simp only [read_file] at h
      cases hix : rfResolve header upid with
      | error e => simp only [hix] at h; cases h
      | ok ix =>
        simp only [hix] at h
        cases hcf : resolveCustomFields header cfs with
        | error e => simp only [hcf] at h; cases h
        | ok ifields =>
          simp only [hcf] at h
          cases hrun : runRows (fStep header.length ix ifields folder) {} lines with
          | error e => simp only [hrun] at h; cases h
          | ok st =>
            simp only [hrun] at h
            cases h
            rw [normalizeFileData_id]
            exact runRows_preserve (fun s => allEqLenF s.data) _
              (fun s a s' hs hp => fStep_eqLen hs hp) lines {} st hrun
              (fun k e he => by rw [dictGet?_nil] at he; cases he)
  · intro files data h
    simp only [read_folder] at h
    cases hrun : runRows rfStep [] (files.mergeSort nameLe) with
    | error e => simp only [hrun] at h; cases h
    | ok st =>
      simp only [hrun] at h
      cases h
      rw [normalizeFolderData_id]
      exact runRows_preserve allEqLenD _
        (fun s a s' hs hp => rfStep_eqLen hs hp) (files.mergeSort nameLe) [] st hrun
        (fun k e he => by rw [dictGet?_nil] at he; cases he)

/-! ## Concrete inputs used by witnesses and counterexamples -/

/-- Header of a per-trial spreadsheet file. -/
def tHeader : List String :=
  ["participant_id", "type", "zone_name", "zone_x", "zone_y",
   "zone_width", "zone_height", "time_stamp", "x", "y"]

/-- A screen-bounds row reporting 100x200. -/
def tRowScreen1 : List String :=
  ["A", "zone", "screen", "0", "0", "100", "200", "1", "0", "0"]

/-- A coordinate row. -/
def tRowMouse : List String :=
  ["A", "mouseview", "", "0", "0", "0", "0", "2", "3.5", "4.5"]

/-- A later screen-bounds row reporting 300x400. -/
def tRowScreen2 : List String :=
  ["A", "zone", "screen", "0", "0", "300", "400", "5", "0", "0"]

/-- A per-trial file for participant A holding two screen-bounds rows. -/
def tFileA : List (List String) := [tHeader, tRowScreen1, tRowMouse, tRowScreen2]

/-- Header of the consolidated delimited table. -/
def fHeader : List String :=
  ["Participant Public ID", "Participant Private ID", "Participant Monitor Size",
   "Participant Viewport Size", "Trial Number", "Zone Type", "Response"]

/-- An index row of participant A (private id A, public id PUB) referencing
the local trial file t1.xlsx. -/
def fLineA : List String :=
  ["PUB", "A", "1920x1080", "800x600", "1", "mouse_view", "t1.xlsx"]

/-- The trial parsed from `tFileA`. -/
def cTrialA : Trial :=
  { msg := [("1", "type=zone;zone=screen;zone_x=0;zone_y=0;zone_w=100;zone_h=200"),
            ("5", "type=zone;zone=screen;zone_x=0;zone_y=0;zone_w=300;zone_h=400")]
    time := ["2"]
    x := ["3.5"]
    y := ["4.5"] }

/-- The participant entry produced by `read_file` on `fLineA` with the
folder containing `tFileA` under t1.xlsx. -/
def cEntryA : FileEntry :=
  { trials := [cTrialA]
    resolution := "1920x1080"
    viewport := "800x600"
    public_id := "PUB"
    private_id := "A" }

/-- Witness for C1 at a concrete accepted input. -/
theorem C1_witness : eqLen cTrialA :=
  C1_sample_lengths_equal.1 [fHeader, fLineA] [("t1.xlsx", tFileA)] [] false
    [("A", cEntryA)] (by decide) "A" cEntryA (by decide) cTrialA (by decide)

/-! ## C8: wrong-length rows are skipped -/

/-- C8: in both read_file and read_single_trial_file, a data row whose
field count differs from the header length leaves the loop state unchanged:
it contributes no participant, trial, sample or message, raises no error,
and processing continues with the next row. -/
theorem C8_wrong_length_rows_skipped :
    (∀ lenH ix ifields folder st line, line.length ≠ lenH →
      fStep lenH ix ifields folder st line = .ok st) ∧
    (∀ lenH ix st row, row.length ≠ lenH →
      stStep lenH ix st row = .ok st) := by
  constructor
  · intro lenH ix ifields folder st line h
    simp [fStep, h]
  · intro lenH ix st row h
    simp [stStep, h]

/-- Column positions of `fHeader` (private-id keying). -/
def cIx : RFIdx :=
  { ipublic := 0, iprivate := 1, iparticipant := 1, iresolution := 2,
    iviewport := 3, itrial := 4, izone := 5, iresp := 6 }

/-- Column positions of `fHeader` with public-id keying. -/
def cIxPub : RFIdx :=
  { ipublic := 0, iprivate := 1, iparticipant := 0, iresolution := 2,
    iviewport := 3, itrial := 4, izone := 5, iresp := 6 }

/-- Column positions of `tHeader`. -/
def cStIx : STIdx :=
  { iparticipant := 0, itype := 1, izone := 2, ihor := 3, iver := 4,
    iwidth := 5, iheight := 6, itime := 7, ix := 8, iy := 9 }

/-- Witness for C8 on a concrete short row. -/
theorem C8_witness :
    fStep 7 cIx [] [] {} ["a"] = .ok {} ∧ stStep 10 cStIx {} ["a"] = .ok {} :=
  ⟨C8_wrong_length_rows_skipped.1 7 cIx [] [] {} ["a"] (by decide),
   C8_wrong_length_rows_skipped.2 10 cStIx {} ["a"] (by decide)⟩

/-! ## C2: a missing referenced file does not, in fact, continue cleanly -/

/-- An index row of participant B referencing a file absent from the trial
folder. -/
def fLineB : List String :=
  ["PUBB", "B", "1024x768", "640x480", "1", "mouse_view", "missing.xlsx"]

/-- C2: the claim says a missing referenced per-trial file yields an empty
trial and processing continues with no error.  The code instead always runs
the identity double-check, which reads the Python local `participant` that
is only assigned when a file is actually read: with no previously read file
this is an UnboundLocalError, and after a file of another participant it is
a stale id that raises a spurious identity mismatch.  Both are evaluated
here on concrete inputs. -/
theorem C2_missing_file_crashes :
    read_file [fHeader, fLineB] [] [] false = .error (.unboundLocal "participant") ∧
    read_file [fHeader, fLineA, fLineB] [("t1.xlsx", tFileA)] [] false =
      .error (.identityMismatch "missing.xlsx" "B" "A") := by
  constructor
  · decide
  · decide

/-! ## C4: the last screen-bounds row wins, not the first -/

/-- C4 counterexample: `tFileA` carries two screen-bounds rows, first
100x200 (row `tRowScreen1`), later 300x400; the returned viewport is built
from the later row, not from the first as the claim states. -/
theorem C4_counterexample :
    read_single_trial_file tFileA = .ok (some "A", some "300x400", cTrialA) ∧
    tFileA = [tHeader, tRowScreen1, tRowMouse, tRowScreen2] ∧
    cell tRowScreen1 5 = "100" ∧ cell tRowScreen1 6 = "200" ∧
    (some "300x400" : Option String) ≠ some ("100" ++ "x" ++ "200") := by
  refine ⟨by decide, rfl, rfl, rfl, by decide⟩

/-- The screen-bounds contribution of one data row (lines 338-347): a
valid-length row of type zone and zone name screen yields the viewport
string built from its width and height fields. -/
def screenVP (lenH : Nat) (ix : STIdx) (row : List String) : Option String :=
  if row.length = lenH ∧ cell row ix.itype = "zone" ∧ cell row ix.izone = "screen" then
    some (cell row ix.iwidth ++ "x" ++ cell row ix.iheight)
  else none

/-- The last element of a scan, or the default when there is none. -/
def lastVP (d : Option String) : List String → Option String
  | [] => d
  | v :: vs => lastVP (some v) vs

theorem stStep_viewport {lenH : Nat} {ix : STIdx} {st : STState} {row : List String}
    {st' : STState} (h : stStep lenH ix st row = .ok st') :
    st'.viewport = match screenVP lenH ix row with
      | some v => some v
      | none => st.viewport := by
  simp only [stStep] at h
  split at h
  · rename_i hlen
    cases h
    simp [screenVP, hlen]
  · rename_i hlen
    have hlen' : row.length = lenH := not_ne_iff.mp hlen
    split at h
    · rename_i hty
      split at h
      · cases h
      · cases h
      · cases h
      · cases h
        have hnz : ¬ cell row ix.itype = "zone" := by rw [hty]; decide
        have hsv : screenVP lenH ix row = none := if_neg (fun hc => hnz hc.2.1)
        simp only [hsv]
        split <;> rfl
    · rename_i hty
      split at h
      · cases h
      · split at h
        · rename_i hzs
          cases h
          simp only [Bool.and_eq_true, decide_eq_true_eq] at hzs
          simp [screenVP, hlen', hzs.1, hzs.2]
        · rename_i hzs
          cases h
          have hsv : screenVP lenH ix row = none :=
            if_neg (fun hc => hzs (by simp [hc.2.1, hc.2.2]))
          simp only [hsv]
          split <;> rfl

theorem stRun_viewport {lenH : Nat} {ix : STIdx} :
    ∀ (body : List (List String)) (st st' : STState),
      runRows (stStep lenH ix) st body = .ok st' →
      st'.viewport = lastVP st.viewport (body.filterMap (screenVP lenH ix)) := by
  intro body
  induction body with
  | nil =>
    intro st st' h
    rw [runRows_nil] at h
    cases h
    rfl
  | cons r rs ih =>
    intro st st' h
    rw [runRows_cons] at h
    cases hr : stStep lenH ix st r with
    | error e => rw [hr] at h; cases h
    | ok st₁ =>
      rw [hr] at h
      have hv := stStep_viewport hr
      rw [List.filterMap_cons]
      cases hsv : screenVP lenH ix r with
      | none =>
        rw [hsv] at hv
        rw [ih st₁ st' h, hv]
      | some v =>
        rw [hsv] at hv
        show st'.viewport = lastVP (some v) (rs.filterMap (screenVP lenH ix))
        rw [ih st₁ st' h, hv]

/-- C4 amended: when read_single_trial_file returns, the viewport is the
screen-bounds string of the LAST valid row with type zone and zone name
screen (later rows overwrite earlier ones); it is None when no such row
exists. -/
theorem C4_last_screen_row_wins :
    ∀ header body ix p v t,
      stResolve header = .ok ix →
      read_single_trial_file (header :: body) = .ok (p, v, t) →
      v = lastVP none (body.filterMap (screenVP header.length ix)) := by
  intro header body ix p v t hres h
  simp only [read_single_trial_file] at h
  simp only [hres] at h
  cases hrun : runRows (stStep header.length ix) {} body with
  | error e => simp only [hrun] at h; cases h
  | ok st =>
    simp only [hrun] at h
    cases h
    exact stRun_viewport body {} st hrun

/-- Witness for C4 at `tFileA`: the 300x400 of the later screen row is what
the scan keeps. -/
theorem C4_witness :
    (some "300x400" : Option String) =
      lastVP none ([tRowScreen1, tRowMouse, tRowScreen2].filterMap
        (screenVP tHeader.length cStIx)) :=
  C4_last_screen_row_wins tHeader [tRowScreen1, tRowMouse, tRowScreen2] cStIx
    (some "A") (some "300x400") cTrialA (by decide) (by decide)

/-! ## C3: custom fields lead each trial's messages in reverse order -/

theorem resolveCustomFields_fst :
    ∀ {cfs : List String} {header : List String} {ifs : List (String × Nat)},
      resolveCustomFields header cfs = .ok ifs → ifs.map Prod.fst = cfs := by
  intro cfs
  induction cfs with
  | nil =>
    intro header ifs h
    simp only [resolveCustomFields] at h
    cases h
    rfl
  | cons f fs ih =>
    intro header ifs h
    simp only [resolveCustomFields] at h
    cases hi : header.findIdx? (fun c => c = f) with
    | none => simp only [hi] at h; cases h
    | some i =>
      simp only [hi] at h
      cases hr : resolveCustomFields header fs with
      | error e => simp only [hr] at h; cases h
      | ok rest =>
        simp only [hr] at h
        cases h
        simp [ih hr]

theorem foldl_insert_zero {β : Type} (pair : β → String × String) :
    ∀ (l : List β) (acc : List (String × String)),
      l.foldl (fun m fi => pair fi :: m) acc = (l.reverse.map pair) ++ acc := by
  intro l
  induction l with
  | nil => intro acc; rfl
  | cons a l ih =>
    intro acc
    simp only [List.foldl_cons, ih, List.reverse_cons, List.map_append, List.map_cons,
      List.map_nil, List.append_assoc, List.cons_append, List.nil_append]

theorem addCustomFields_msg (ifields : List (String × Nat)) (line : List String)
    (t : Trial) :
    (addCustomFields ifields line t).msg =
      (ifields.reverse.map (fun fi => (fi.1, cell line fi.2))) ++ t.msg :=
  @foldl_insert_zero (String × Nat) (fun fi => (fi.1, cell line fi.2)) ifields t.msg

/-- Every trial stored in a `read_file` data dict satisfies `Q`. -/
def allTrials (Q : Trial → Prop) (d : List (String × FileEntry)) : Prop :=
  ∀ k e, dictGet? d k = some e → ∀ t, t ∈ e.trials → Q t

theorem allTrials_set_fresh {Q : Trial → Prop} {d : List (String × FileEntry)}
    {k : String} {v : FileEntry} (hd : allTrials Q d) (hv : v.trials = []) :
    allTrials Q (dictSet d k v) := by
  intro k' e he t ht
  rw [dictGet?_set] at he
  split at he
  · cases he; rw [hv] at ht; cases ht
  · exact hd k' e he t ht

theorem allTrials_modify_append {Q : Trial → Prop} {d : List (String × FileEntry)}
    {k : String} {trial : Trial} (hd : allTrials Q d) (ht : Q trial) :
    allTrials Q (dictModify d k (fun e => { e with trials := e.trials ++ [trial] })) := by
  intro k' e he t htm
  rw [dictGet?_modify] at he
  split at he
  · cases hg : dictGet? d k' with
    | none => rw [hg] at he; cases he
    | some e₀ =>
      rw [hg] at he
      cases he
      simp only [List.mem_append, List.mem_singleton] at htm
      cases htm with
      | inl hin => exact hd k' e₀ hg t hin
      | inr heq => cases heq; exact ht
  · exact hd k' e he t htm

theorem checkAndAppend_allTrials {Q : Trial → Prop} {iprivate : Nat} {st : RFState}
    {line : List String} {fname key : String} {trial : Trial} {st' : RFState}
    (h : checkAndAppend iprivate st line fname key trial = .ok st')
    (hd : allTrials Q st.data) (ht : Q trial) : allTrials Q st'.data := by
  simp only [checkAndAppend] at h
  cases hf : st.filePart with
  | none => simp only [hf] at h; cases h
  | some p =>
    simp only [hf] at h
    split at h
    · cases h
    · cases h
      simp only [appendUnder]
      exact allTrials_modify_append hd ht

theorem fStep_allTrials {Q : Trial → Prop} {lenH : Nat} {ix : RFIdx}
    {ifields : List (String × Nat)} {folder : List (String × List (List String))}
    {st : RFState} {line : List String} {st' : RFState}
    (h : fStep lenH ix ifields folder st line = .ok st')
    (hQ : ∀ l b, Q (addCustomFields ifields l b))
    (hd : allTrials Q st.data) : allTrials Q st'.data := by
  have hd₁ : allTrials Q (bookkeep ix st line).data := by
    simp only [bookkeep]
    split
    · exact allTrials_set_fresh hd rfl
    · exact hd
  simp only [fStep] at h
  split at h
  · cases h; exact hd
  · split at h
    · split at h
      · cases h
        exact hd₁
      · cases hfind : folder.find? (fun nf => nf.1 = cell line ix.iresp) with
        | some nf =>
          simp only [hfind] at h
          cases hstf : read_single_trial_file nf.2 with
          | error e => simp only [hstf] at h; cases h
          | ok r =>
            simp only [hstf] at h
            exact checkAndAppend_allTrials h hd₁ (hQ line r.2.2)
        | none =>
          simp only [hfind] at h
          exact checkAndAppend_allTrials h hd₁ (hQ line emptyTrial)
    · cases h
      exact hd₁

/-- C3 amended: the custom-field pairs lead each trial's messages in the
REVERSE of the requested order; with distinct requested fields each appears
exactly once among those leading slots. -/
theorem C3_custom_fields_reversed :
    ∀ header lines folder cfs upid data ix ifs,
      read_file (header :: lines) folder cfs upid = .ok data →
      rfResolve header upid = .ok ix →
      resolveCustomFields header cfs = .ok ifs →
      ∀ k e, dictGet? data k = some e → ∀ t, t ∈ e.trials →
        (t.msg.take cfs.length).map Prod.fst = cfs.reverse ∧
        (cfs.Nodup → ∀ f, f ∈ cfs →
          ((t.msg.take cfs.length).map Prod.fst).count f = 1) := by
  intro header lines folder cfs upid data ix ifs h hix hcf k e he t ht
  have hfst : ifs.map Prod.fst = cfs := resolveCustomFields_fst hcf
  have hlen : ifs.length = cfs.length := by
    rw [← hfst, List.length_map]
  have hQ : ∀ l b, ((addCustomFields ifs l b).msg.take cfs.length).map Prod.fst
      = cfs.reverse := by
    intro l b
    rw [addCustomFields_msg]
    rw [List.take_left' (by simp [hlen])]
    simp [← hfst]
  have hmain : (t.msg.take cfs.length).map Prod.fst = cfs.reverse := by
    simp only [read_file] at h
    simp only [hix] at h
    simp only [hcf] at h
    cases hrun : runRows (fStep header.length ix ifs folder) {} lines with
    | error e₀ => simp only [hrun] at h; cases h
    | ok st =>
      simp only [hrun] at h
      cases h
      rw [normalizeFileData_id] at he
      exact runRows_preserve
        (fun s => allTrials
          (fun tr => (tr.msg.take cfs.length).map Prod.fst = cfs.reverse) s.data) _
        (fun s a s' hs hp => fStep_allTrials hs hQ hp) lines {} st hrun
        (fun k₀ e₀ he₀ => by rw [dictGet?_nil] at he₀; cases he₀) k e he t ht
  refine ⟨hmain, fun hnd f hf => ?_⟩
  rw [hmain, List.count_reverse]
  exact List.count_eq_one_of_mem hnd hf

/-- The trial of `cTrialA` with the two requested custom fields attached in
reverse order. -/
def cTrialCF : Trial :=
  { cTrialA with msg :=
      ("Response", "t1.xlsx") :: ("Trial Number", "1") :: cTrialA.msg }

/-- The participant entry produced with custom fields
`["Trial Number", "Response"]`. -/
def cEntryCF : FileEntry :=
  { cEntryA with trials := [cTrialCF] }

/-- C3 counterexample: with custom_fields `["Trial Number", "Response"]`
the first two messages of the produced trial are in the reverse of the
requested order, not the requested order as the claim states. -/
theorem C3_counterexample :
    read_file [fHeader, fLineA] [("t1.xlsx", tFileA)] ["Trial Number", "Response"] false =
      .ok [("A", cEntryCF)] ∧
    cTrialCF.msg.take 2 = [("Response", "t1.xlsx"), ("Trial Number", "1")] ∧
    cTrialCF.msg.take 2 ≠ [("Trial Number", "1"), ("Response", "t1.xlsx")] := by
  refine ⟨by decide, by decide, by decide⟩

/-- Witness for C3 at the same concrete run. -/
theorem C3_witness :
    (cTrialCF.msg.take 2).map Prod.fst = ["Response", "Trial Number"] ∧
    ((cTrialCF.msg.take 2).map Prod.fst).count "Trial Number" = 1 := by
  have h := C3_custom_fields_reversed fHeader [fLineA] [("t1.xlsx", tFileA)]
    ["Trial Number", "Response"] false [("A", cEntryCF)] cIx
    [("Trial Number", 4), ("Response", 6)] (by decide) (by decide) (by decide)
    "A" cEntryCF (by decide) cTrialCF (by decide)
  exact ⟨h.1, h.2 (by decide) "Trial Number" (by decide)⟩

/-! ## C9 and C5: the identity cross-check -/

theorem pyIndex_ok {header : List String} {col : String} {i : Nat}
    (h : pyIndex header col = .ok i) :
    header.findIdx? (fun c => c = col) = some i := by
  simp only [pyIndex] at h
  cases hf : header.findIdx? (fun c => c = col) with
  | none => simp only [hf] at h; cases h
  | some j => simp only [hf] at h; cases h; rfl

theorem rfResolve_spec :
    ∀ header upid ix, rfResolve header upid = .ok ix →
      header.findIdx? (fun c => c = "Participant Private ID") = some ix.iprivate ∧
      header.findIdx? (fun c => c = "Participant Public ID") = some ix.ipublic ∧
      ix.iparticipant = (if upid then ix.ipublic else ix.iprivate) := by
  intro header upid ix h
  simp only [rfResolve] at h
  cases h1 : pyIndex header "Participant Public ID" with
  | error e => simp only [h1] at h; cases h
  | ok i1 =>
    simp only [h1] at h
    cases h2 : pyIndex header "Participant Private ID" with
    | error e => simp only [h2] at h; cases h
    | ok i2 =>
      simp only [h2] at h
      cases h3 : pyIndex header "Participant Monitor Size" with
      | error e => simp only [h3] at h; cases h
      | ok i3 =>
        simp only [h3] at h
        cases h4 : pyIndex header "Participant Viewport Size" with
        | error e => simp only [h4] at h; cases h
        | ok i4 =>
          simp only [h4] at h
          cases h5 : pyIndex header "Trial Number" with
          | error e => simp only [h5] at h; cases h
          | ok i5 =>
            simp only [h5] at h
            cases h6 : pyIndex header "Zone Type" with
            | error e => simp only [h6] at h; cases h
            | ok i6 =>
              simp only [h6] at h
              cases h7 : pyIndex header "Response" with
              | error e => simp only [h7] at h; cases h
              | ok i7 =>
                simp only [h7] at h
                cases h
                exact ⟨pyIndex_ok h2, pyIndex_ok h1, rfl⟩

theorem checkAndAppend_spec (iprivate : Nat) (st : RFState) (line : List String)
    (fname key : String) (trial : Trial) (p : Option String)
    (hf : st.filePart = some p) :
    (pyStr p ≠ cell line iprivate →
      checkAndAppend iprivate st line fname key trial =
        .error (.identityMismatch fname key (pyStr p))) ∧
    (pyStr p = cell line iprivate →
      checkAndAppend iprivate st line fname key trial =
        .ok (appendUnder st key trial)) := by
  constructor <;> intro hp <;> simp [checkAndAppend, hf, hp]

theorem fStep_file_found {lenH : Nat} {ix : RFIdx} {ifields : List (String × Nat)}
    {folder : List (String × List (List String))} {st : RFState} {line : List String}
    {nf : String × List (List String)} {r : Option String × Option String × Trial}
    (hlen : line.length = lenH) (hz : isMouse (cell line ix.izone) = true)
    (hurl : pyTake (cell line ix.iresp) 8 ≠ "https://")
    (hfind : folder.find? (fun f => f.1 = cell line ix.iresp) = some nf)
    (hstf : read_single_trial_file nf.2 = .ok r) :
    fStep lenH ix ifields folder st line =
      checkAndAppend ix.iprivate { bookkeep ix st line with filePart := some r.1 }
        line (cell line ix.iresp) (cell line ix.iparticipant)
        (addCustomFields ifields line r.2.2) := by
  simp only [fStep, hlen, hz, hurl, hfind, hstf]
  simp

/-- C9: the identity cross-check of line 165 always compares the per-trial
file's reported id against the line's Participant Private ID value, even
when use_public_id is true and the produced map is keyed by the Participant
Public ID value: index resolution binds iprivate to the Private ID column
and keys by the Public ID column, and the step errors exactly on a private
id mismatch, otherwise appending under the participant-key column value. -/
theorem C9_check_uses_private_id :
    (∀ header ix, rfResolve header true = .ok ix →
      header.findIdx? (fun c => c = "Participant Private ID") = some ix.iprivate ∧
      header.findIdx? (fun c => c = "Participant Public ID") = some ix.ipublic ∧
      ix.iparticipant = ix.ipublic) ∧
    (∀ lenH ix ifields folder st line nf r,
      line.length = lenH →
      isMouse (cell line ix.izone) = true →
      pyTake (cell line ix.iresp) 8 ≠ "https://" →
      folder.find? (fun f => f.1 = cell line ix.iresp) = some nf →
      read_single_trial_file nf.2 = .ok r →
      (pyStr r.1 ≠ cell line ix.iprivate →
        fStep lenH ix ifields folder st line =
          .error (.identityMismatch (cell line ix.iresp)
            (cell line ix.iparticipant) (pyStr r.1))) ∧
      (pyStr r.1 = cell line ix.iprivate →
        fStep lenH ix ifields folder st line =
          .ok (appendUnder { bookkeep ix st line with filePart := some r.1 }
            (cell line ix.iparticipant) (addCustomFields ifields line r.2.2)))) := by
  constructor
  · intro header ix h
    have hs := rfResolve_spec header true ix h
    exact ⟨hs.1, hs.2.1, hs.2.2⟩
  · intro lenH ix ifields folder st line nf r hlen hz hurl hfind hstf
    rw [fStep_file_found hlen hz hurl hfind hstf]
    exact checkAndAppend_spec ix.iprivate
      { bookkeep ix st line with filePart := some r.1 } line (cell line ix.iresp)
      (cell line ix.iparticipant) (addCustomFields ifields line r.2.2) r.1 rfl

/-- Witness for C9: resolution of `fHeader` under public-id keying, and the
concrete step on `fLineA`, where the file id A matches the private id. -/
theorem C9_witness :
    (List.findIdx? (fun c => c = "Participant Private ID") fHeader = some cIxPub.iprivate ∧
     List.findIdx? (fun c => c = "Participant Public ID") fHeader = some cIxPub.ipublic ∧
     cIxPub.iparticipant = cIxPub.ipublic) ∧
    fStep 7 cIx [] [("t1.xlsx", tFileA)] {} fLineA =
      .ok (appendUnder { bookkeep cIx {} fLineA with filePart := some (some "A") }
        "A" (addCustomFields [] fLineA cTrialA)) := by
  refine ⟨C9_check_uses_private_id.1 fHeader cIxPub (by decide), ?_⟩
  exact (C9_check_uses_private_id.2 7 cIx [] [("t1.xlsx", tFileA)] {} fLineA
    ("t1.xlsx", tFileA) (some "A", some "300x400", cTrialA)
    (by decide) (by decide) (by decide) (by decide) (by decide)).2 (by decide)

/-- A per-trial file whose first data row reports participant OTHER. -/
def tFileOther : List (List String) :=
  [tHeader, ["OTHER", "zone", "screen", "0", "0", "100", "200", "1", "0", "0"]]

/-- The trial parsed from `tFileOther`. -/
def cTrialOther : Trial :=
  { msg := [("1", "type=zone;zone=screen;zone_x=0;zone_y=0;zone_w=100;zone_h=200")]
    time := [], x := [], y := [] }

/-- An index row with distinct public (PUB) and private (PRIV) ids,
referencing t2.xlsx. -/
def fLinePP : List String :=
  ["PUB", "PRIV", "1920x1080", "800x600", "1", "mouse_view", "t2.xlsx"]

/-- C5 counterexample: with use_public_id the run does abort on a private-id
mismatch, but the error names the participant key (the public id PUB) and
the file's id, not both conflicting ids: the compared private id PRIV
appears nowhere in the error. -/
theorem C5_counterexample :
    read_file [fHeader, fLinePP] [("t2.xlsx", tFileOther)] [] true =
      .error (.identityMismatch "t2.xlsx" "PUB" "OTHER") ∧
    cell fLinePP 1 = "PRIV" ∧
    ("PRIV" ≠ "t2.xlsx" ∧ "PRIV" ≠ "PUB" ∧ "PRIV" ≠ "OTHER") := by
  refine ⟨by decide, rfl, by decide⟩

/-- C5 amended: when a processed index row's referenced file exists and its
reported id differs from the row's Participant Private ID value, the whole
run aborts with an identity-mismatch error naming the filename, the row's
participant-key value (private id by default, public id when use_public_id),
and the file's reported id. -/
theorem C5_mismatch_aborts :
    ∀ header pre line rest folder cfs upid ix ifs st nf r,
      rfResolve header upid = .ok ix →
      resolveCustomFields header cfs = .ok ifs →
      runRows (fStep header.length ix ifs folder) {} pre = .ok st →
      line.length = header.length →
      isMouse (cell line ix.izone) = true →
      pyTake (cell line ix.iresp) 8 ≠ "https://" →
      folder.find? (fun f => f.1 = cell line ix.iresp) = some nf →
      read_single_trial_file nf.2 = .ok r →
      pyStr r.1 ≠ cell line ix.iprivate →
      read_file (header :: (pre ++ line :: rest)) folder cfs upid =
        .error (.identityMismatch (cell line ix.iresp)
          (cell line ix.iparticipant) (pyStr r.1)) := by
  intro header pre line rest folder cfs upid ix ifs st nf r hix hcf hpre hlen hz hurl
    hfind hstf hne
  have hstep := (checkAndAppend_spec ix.iprivate
    { bookkeep ix st line with filePart := some r.1 } line (cell line ix.iresp)
    (cell line ix.iparticipant) (addCustomFields ifs line r.2.2) r.1 rfl).1 hne
  simp only [read_file, hix, hcf, runRows_append, hpre, runRows_cons,
    fStep_file_found hlen hz hurl hfind hstf, hstep]

/-- Witness for C5 on the concrete mismatching run. -/
theorem C5_witness :
    read_file [fHeader, fLinePP] [("t2.xlsx", tFileOther)] [] true =
      .error (.identityMismatch "t2.xlsx" "PUB" "OTHER") :=
  C5_mismatch_aborts fHeader [] fLinePP [] [("t2.xlsx", tFileOther)] [] true
    cIxPub [] {} ("t2.xlsx", tFileOther) (some "OTHER", some "100x200", cTrialOther)
    (by decide) (by decide) (by decide) (by decide) (by decide) (by decide)
    (by decide) (by decide) (by decide)

/-! ## C10: folder-mode resolution always equals viewport -/

/-- Every folder-mode entry has its resolution equal to its viewport. -/
def resEqVp (d : List (Option String × FolderEntry)) : Prop :=
  ∀ k e, dictGet? d k = some e → e.resolution = e.viewport

theorem resEqVp_set_fresh {d : List (Option String × FolderEntry)} {p : Option String}
    (hd : resEqVp d) : resEqVp (dictSet d p {}) := by
  intro k e he
  rw [dictGet?_set] at he
  split at he
  · cases he; rfl
  · exact hd k e he

theorem resEqVp_modify_fill {d : List (Option String × FolderEntry)} {p : Option String}
    {vp : Option String} (hd : resEqVp d) : resEqVp (dictModify d p (fillEntry vp)) := by
  intro k e he
  rw [dictGet?_modify] at he
  split at he
  · cases hg : dictGet? d k with
    | none => rw [hg] at he; cases he
    | some e₀ =>
      rw [hg] at he
      cases he
      simp only [fillEntry]
      split
      · rfl
      · exact hd k e₀ hg
  · exact hd k e he

theorem resEqVp_modify_append {d : List (Option String × FolderEntry)} {p : Option String}
    {t : Trial} (hd : resEqVp d) : resEqVp (dictModify d p (appendEntry t)) := by
  intro k e he
  rw [dictGet?_modify] at he
  split at he
  · cases hg : dictGet? d k with
    | none => rw [hg] at he; cases he
    | some e₀ =>
      rw [hg] at he
      cases he
      exact hd k e₀ hg
  · exact hd k e he

theorem rfStep_resEqVp {data : List (Option String × FolderEntry)}
    {file : String × List (List String)} {data' : List (Option String × FolderEntry)}
    (h : rfStep data file = .ok data') (hd : resEqVp data) : resEqVp data' := by
  simp only [rfStep] at h
  split at h
  · cases h; exact hd
  · split at h
    · cases h; exact hd
    · cases hstf : read_single_trial_file file.2 with
      | error e => simp only [hstf] at h; cases h
      | ok r =>
        simp only [hstf] at h
        cases h
        simp only [rfUpdate]
        refine resEqVp_modify_append (resEqVp_modify_fill ?_)
        split
        · exact hd
        · exact resEqVp_set_fresh hd

/-- C10: in the map returned by read_folder, every participant's resolution
field equals its viewport field (both still None, or set together from the
same per-trial viewport value). -/
theorem C10_resolution_equals_viewport :
    ∀ files data, read_folder files = .ok data →
      ∀ k e, dictGet? data k = some e → e.resolution = e.viewport := by
  intro files data h
  simp only [read_folder] at h
  cases hrun : runRows rfStep [] (files.mergeSort nameLe) with
  | error e => simp only [hrun] at h; cases h
  | ok st =>
    simp only [hrun] at h
    cases h
    rw [normalizeFolderData_id]
    exact runRows_preserve resEqVp _
      (fun s a s' hs hp => rfStep_resEqVp hs hp) (files.mergeSort nameLe) [] st hrun
      (fun k e he => by rw [dictGet?_nil] at he; cases he)

/-- The folder-mode entry parsed from `tFileA` alone. -/
def cFEntryA : FolderEntry :=
  { trials := [cTrialA], resolution := some "300x400", viewport := some "300x400" }

/-- Witness for C10 on a one-file folder. -/
theorem C10_witness : cFEntryA.resolution = cFEntryA.viewport := by
  have hrun : read_folder [("a.xlsx", tFileA)] = .ok [(some "A", cFEntryA)] := by
    have hs : List.mergeSort [("a.xlsx", tFileA)] nameLe = [("a.xlsx", tFileA)] :=
      List.mergeSort_of_sorted (by simp)
    simp only [read_folder, hs]
    decide
  exact C10_resolution_equals_viewport [("a.xlsx", tFileA)] [(some "A", cFEntryA)]
    hrun (some "A") cFEntryA (by decide)

/-! ## C6: entry lifecycle (append-only holds in folder mode, not in file mode) -/

theorem rfUpdate_get_self (data : List (Option String × FolderEntry)) (p : Option String)
    (vp : Option String) (t : Trial) :
    dictGet? (rfUpdate data p vp t) p =
      some (appendEntry t (fillEntry vp ((dictGet? data p).getD {}))) := by
  simp only [rfUpdate]
  rw [dictGet?_modify, if_pos rfl, dictGet?_modify, if_pos rfl]
  cases hg : dictGet? data p with
  | some e => simp [hg]
  | none =>
    simp only [hg, Option.isSome_none, Bool.false_eq_true, if_false]
    rw [dictGet?_set, if_pos rfl]
    rfl

theorem rfUpdate_get_other {q p : Option String}
    (data : List (Option String × FolderEntry)) (vp : Option String) (t : Trial)
    (hne : q ≠ p) :
    dictGet? (rfUpdate data q vp t) p = dictGet? data p := by
  simp only [rfUpdate]
  rw [dictGet?_modify, if_neg hne, dictGet?_modify, if_neg hne]
  split
  · rfl
  · rw [dictGet?_set, if_neg hne]

/-- A second per-trial file of participant A, with a distinct sample. -/
def tFileA2 : List (List String) :=
  [tHeader, ["A", "mouseview", "", "0", "0", "0", "0", "9", "1.5", "2.5"]]

/-- A per-trial file of participant B. -/
def tFileB : List (List String) :=
  [tHeader, ["B", "zone", "screen", "0", "0", "50", "60", "1", "0", "0"]]

/-- An index row of participant B referencing the existing tb.xlsx. -/
def fLineBt : List String :=
  ["PUBB", "B", "1024x768", "640x480", "1", "mouse_view", "tb.xlsx"]

/-- A second index row of participant A referencing t3.xlsx. -/
def fLineA2 : List String :=
  ["PUB", "A", "1920x1080", "800x600", "2", "mouse_view", "t3.xlsx"]

/-- The trial folder for the A, B, A run. -/
def cFolder6 : List (String × List (List String)) :=
  [("t1.xlsx", tFileA), ("tb.xlsx", tFileB), ("t3.xlsx", tFileA2)]

/-- C6 counterexample: in read_file, processing rows of participants A, B,
then A again leaves A's entry replaced: after the first row A holds one
trial with time 2; after all three rows A holds one trial with time 9, so
the earlier trials list is not a prefix of the later one and the earlier
trial was dropped. -/
theorem C6_counterexample :
    (runRows (fStep 7 cIx [] cFolder6) {} [fLineA]).map
        (fun st => (dictGet? st.data "A").map (fun e => e.trials.map (fun t => t.time))) =
      .ok (some [["2"]]) ∧
    (runRows (fStep 7 cIx [] cFolder6) {} [fLineA, fLineBt, fLineA2]).map
        (fun st => (dictGet? st.data "A").map (fun e => e.trials.map (fun t => t.time))) =
      .ok (some [["9"]]) ∧
    (read_file [fHeader, fLineA, fLineBt, fLineA2] cFolder6 [] false).map
        (fun d => (dictGet? d "A").map (fun e => e.trials.map (fun t => t.time))) =
      .ok (some [["9"]]) ∧
    (([["2"]] : List (List String)).isPrefixOf [["9"]]) = false ∧
    rfResolve fHeader false = .ok cIx := by
  refine ⟨by decide, by decide, by decide, by decide, by decide⟩

theorem checkAndAppend_get {iprivate : Nat} {st : RFState} {line : List String}
    {fname key : String} {trial : Trial} {st' : RFState} {p : String} {e : FileEntry}
    (h : checkAndAppend iprivate st line fname key trial = .ok st')
    (he : dictGet? st.data p = some e) :
    ∃ e', dictGet? st'.data p = some e' ∧
      (∃ ts, e'.trials = e.trials ++ ts ∧ ts.length ≤ 1) ∧
      e'.resolution = e.resolution ∧ e'.viewport = e.viewport := by
  simp only [checkAndAppend] at h
  cases hf : st.filePart with
  | none => simp only [hf] at h; cases h
  | some q =>
    simp only [hf] at h
    split at h
    · cases h
    · cases h
      simp only [appendUnder]
      rw [dictGet?_modify]
      split
      · refine ⟨{ e with trials := e.trials ++ [trial] }, ?_, ⟨[trial], rfl, by simp⟩, rfl, rfl⟩
        rw [he]
        rfl
      · exact ⟨e, he, ⟨[], by simp, by simp⟩, rfl, rfl⟩

theorem bookkeep_eq_of_current {ix : RFIdx} {st : RFState} {line : List String}
    (hcur : some (cell line ix.iparticipant) = st.current) :
    bookkeep ix st line = st := by
  simp only [bookkeep]
  rw [if_neg (not_ne_iff.mpr hcur)]

/-- The fresh entry opened by `bookkeep` for a new participant. -/
def freshEntry (ix : RFIdx) (line : List String) : FileEntry :=
  { trials := [], resolution := cell line ix.iresolution,
    viewport := cell line ix.iviewport, public_id := cell line ix.ipublic,
    private_id := cell line ix.iprivate }

theorem bookkeep_get_new {ix : RFIdx} {st : RFState} {line : List String}
    (hne : some (cell line ix.iparticipant) ≠ st.current) :
    dictGet? (bookkeep ix st line).data (cell line ix.iparticipant) =
      some (freshEntry ix line) := by
  simp only [bookkeep]
  rw [if_pos hne]
  show dictGet? (dictSet st.data (cell line ix.iparticipant) (freshEntry ix line)) _ = _
  rw [dictGet?_set, if_pos rfl]

/-- C6 amended: in read_folder an existing participant entry is never
deleted or replaced: one file step only appends to its trials and, once the
viewport is non-None, leaves viewport and resolution unchanged.  In
read_file the same holds only while the row's participant id equals the
current participant; when a participant id re-appears after rows of a
different participant, the line's step replaces the entry with a fresh one
holding at most the one trial of that line, discarding earlier trials. -/
theorem C6_entry_lifecycle :
    (∀ data file data' p e, rfStep data file = .ok data' → dictGet? data p = some e →
      ∃ e', dictGet? data' p = some e' ∧ (∃ ts, e'.trials = e.trials ++ ts) ∧
        (e.viewport ≠ none → e'.viewport = e.viewport ∧ e'.resolution = e.resolution)) ∧
    (∀ lenH ix ifields folder st line st' p e,
      some (cell line ix.iparticipant) = st.current →
      fStep lenH ix ifields folder st line = .ok st' →
      dictGet? st.data p = some e →
      ∃ e', dictGet? st'.data p = some e' ∧ (∃ ts, e'.trials = e.trials ++ ts) ∧
        e'.resolution = e.resolution ∧ e'.viewport = e.viewport) ∧
    (∀ lenH ix ifields folder st line st',
      line.length = lenH →
      some (cell line ix.iparticipant) ≠ st.current →
      fStep lenH ix ifields folder st line = .ok st' →
      ∃ e', dictGet? st'.data (cell line ix.iparticipant) = some e' ∧
        e'.trials.length ≤ 1) := by
  refine ⟨?_, ?_, ?_⟩
  · intro data file data' p e h he
    simp only [rfStep] at h
    split at h
    · cases h; exact ⟨e, he, ⟨[], by simp⟩, fun _ => ⟨rfl, rfl⟩⟩
    · split at h
      · cases h; exact ⟨e, he, ⟨[], by simp⟩, fun _ => ⟨rfl, rfl⟩⟩
      · cases hstf : read_single_trial_file file.2 with
        | error e₀ => simp only [hstf] at h; cases h
        | ok r =>
          simp only [hstf] at h
          cases h
          by_cases hpq : r.1 = p
          · cases hpq
            rw [rfUpdate_get_self, he]
            refine ⟨_, rfl, ⟨[r.2.2], ?_⟩, ?_⟩
            · simp only [Option.getD_some, appendEntry, fillEntry]
              split <;> rfl
            · intro hvp
              simp only [Option.getD_some, appendEntry, fillEntry]
              rw [if_neg hvp]
              exact ⟨rfl, rfl⟩
          · rw [rfUpdate_get_other data r.2.1 r.2.2 hpq]
            exact ⟨e, he, ⟨[], by simp⟩, fun _ => ⟨rfl, rfl⟩⟩
  · intro lenH ix ifields folder st line st' p e hcur h he
    simp only [fStep, bookkeep_eq_of_current hcur] at h
    split at h
    · cases h; exact ⟨e, he, ⟨[], by simp⟩, rfl, rfl⟩
    · split at h
      · split at h
        · cases h; exact ⟨e, he, ⟨[], by simp⟩, rfl, rfl⟩
        · cases hfind : folder.find? (fun nf => nf.1 = cell line ix.iresp) with
          | some nf =>
            simp only [hfind] at h
            cases hstf : read_single_trial_file nf.2 with
            | error e₀ => simp only [hstf] at h; cases h
            | ok r =>
              simp only [hstf] at h
              obtain ⟨e', hg, ⟨ts, hts, _⟩, hres, hvp⟩ := checkAndAppend_get h he
              exact ⟨e', hg, ⟨ts, hts⟩, hres, hvp⟩
          | none =>
            simp only [hfind] at h
            obtain ⟨e', hg, ⟨ts, hts, _⟩, hres, hvp⟩ := checkAndAppend_get h he
            exact ⟨e', hg, ⟨ts, hts⟩, hres, hvp⟩
      · cases h; exact ⟨e, he, ⟨[], by simp⟩, rfl, rfl⟩
  · intro lenH ix ifields folder st line st' hlen hne h
    simp only [fStep] at h
    split at h
    · rename_i hll
      exact absurd hlen hll
    · have hnew := @bookkeep_get_new ix st line hne
      split at h
      · split at h
        · cases h
          exact ⟨freshEntry ix line, hnew, by simp [freshEntry]⟩
        · cases hfind : folder.find? (fun nf => nf.1 = cell line ix.iresp) with
          | some nf =>
            simp only [hfind] at h
            cases hstf : read_single_trial_file nf.2 with
            | error e₀ => simp only [hstf] at h; cases h
            | ok r =>
              simp only [hstf] at h
              obtain ⟨e', hg, ⟨ts, hts, htl⟩, _, _⟩ := checkAndAppend_get h hnew
              refine ⟨e', hg, ?_⟩
              rw [hts]
              simpa [freshEntry] using htl
          | none =>
            simp only [hfind] at h
            obtain ⟨e', hg, ⟨ts, hts, htl⟩, _, _⟩ := checkAndAppend_get h hnew
            refine ⟨e', hg, ?_⟩
            rw [hts]
            simpa [freshEntry] using htl
      · cases h
        exact ⟨freshEntry ix line, hnew, by simp [freshEntry]⟩

/-- The trial parsed from `tFileA2`. -/
def cA2Trial : Trial := { msg := [], time := ["9"], x := ["1.5"], y := ["2.5"] }

/-- Folder-mode entry for A after tFileA and tFileA2. -/
def cFEntryA2 : FolderEntry :=
  { trials := [cTrialA, cA2Trial], resolution := some "300x400", viewport := some "300x400" }

/-- The `read_file` state after processing `fLineA`. -/
def cSt6 : RFState :=
  { data := [("A", cEntryA)], current := some "A", filePart := some (some "A") }

/-- A's entry after both of its rows. -/
def cEntryA2F : FileEntry := { cEntryA with trials := [cTrialA, cA2Trial] }

/-- The `read_file` state after `fLineA` then `fLineA2`. -/
def cSt6' : RFState :=
  { data := [("A", cEntryA2F)], current := some "A", filePart := some (some "A") }

/-- The trial parsed from `tFileB`. -/
def cTrialB : Trial :=
  { msg := [("1", "type=zone;zone=screen;zone_x=0;zone_y=0;zone_w=50;zone_h=60")]
    time := [], x := [], y := [] }

/-- B's entry after its row. -/
def cEntryB : FileEntry :=
  { trials := [cTrialB], resolution := "1024x768", viewport := "640x480",
    public_id := "PUBB", private_id := "B" }

/-- The `read_file` state after `fLineA` then `fLineBt`. -/
def cSt6B : RFState :=
  { data := [("A", cEntryA), ("B", cEntryB)], current := some "B", filePart := some (some "B") }

/-- Witness for C6 on concrete steps of both readers. -/
theorem C6_witness :
    (∃ e', dictGet? [(some "A", cFEntryA2)] (some "A") = some e' ∧
      (∃ ts, e'.trials = cFEntryA.trials ++ ts) ∧
      (cFEntryA.viewport ≠ none →
        e'.viewport = cFEntryA.viewport ∧ e'.resolution = cFEntryA.resolution)) ∧
    (∃ e', dictGet? cSt6'.data "A" = some e' ∧ (∃ ts, e'.trials = cEntryA.trials ++ ts) ∧
      e'.resolution = cEntryA.resolution ∧ e'.viewport = cEntryA.viewport) ∧
    (∃ e', dictGet? cSt6B.data "B" = some e' ∧ e'.trials.length ≤ 1) := by
  refine ⟨?_, ?_, ?_⟩
  · exact C6_entry_lifecycle.1 [(some "A", cFEntryA)] ("b.xlsx", tFileA2)
      [(some "A", cFEntryA2)] (some "A") cFEntryA (by decide) (by decide)
  · exact C6_entry_lifecycle.2.1 7 cIx [] cFolder6 cSt6 fLineA2 cSt6' "A" cEntryA
      (by decide) (by decide) (by decide)
  · exact C6_entry_lifecycle.2.2 7 cIx [] cFolder6 cSt6 fLineBt cSt6B
      (by decide) (by decide) (by decide)

/-! ## C7: folder-mode processing order and viewport filling -/

theorem lexLt_false_trans :
    ∀ (a b c : List Char), lexLt b a = false → lexLt c b = false → lexLt c a = false := by
  intro a
  induction a with
  | nil =>
    intro b c h1 h2
    cases c with
    | nil => rfl
    | cons c0 cs => rfl
  | cons a0 as ih =>
    intro b c h1 h2
    cases b with
    | nil => simp [lexLt] at h1
    | cons b0 bs =>
      cases c with
      | nil => simp [lexLt] at h2
      | cons c0 cs =>
        simp only [lexLt] at h1 h2 ⊢
        by_cases hba : b0.toNat < a0.toNat
        · rw [if_pos hba] at h1; cases h1
        · rw [if_neg hba] at h1
          by_cases hcb : c0.toNat < b0.toNat
          · rw [if_pos hcb] at h2; cases h2
          · rw [if_neg hcb] at h2
            have hca : ¬ c0.toNat < a0.toNat := by omega
            rw [if_neg hca]
            by_cases hac : a0.toNat < c0.toNat
            · rw [if_pos hac]
            · rw [if_neg hac]
              have hab : ¬ a0.toNat < b0.toNat := by omega
              have hbc : ¬ b0.toNat < c0.toNat := by omega
              rw [if_neg hab] at h1
              rw [if_neg hbc] at h2
              exact ih bs cs h1 h2

theorem lexLt_asymm : ∀ (a b : List Char), lexLt a b = true → lexLt b a = false := by
  intro a
  induction a with
  | nil =>
    intro b h
    cases b with
    | nil => simp [lexLt] at h
    | cons b0 bs => rfl
  | cons a0 as ih =>
    intro b h
    cases b with
    | nil => simp [lexLt] at h
    | cons b0 bs =>
      simp only [lexLt] at h ⊢
      by_cases hab : a0.toNat < b0.toNat
      · have hba : ¬ b0.toNat < a0.toNat := by omega
        rw [if_neg hba, if_pos hab]
      · rw [if_neg hab] at h
        by_cases hba : b0.toNat < a0.toNat
        · rw [if_pos hba] at h; cases h
        · rw [if_neg hba] at h
          rw [if_neg hba, if_neg hab]
          exact ih bs h

theorem nameLe_trans : ∀ x y z : String × List (List String),
    nameLe x y = true → nameLe y z = true → nameLe x z = true := by
  intro x y z h1 h2
  simp only [nameLe, Bool.not_eq_true'] at h1 h2 ⊢
  exact lexLt_false_trans x.1.data y.1.data z.1.data h1 h2

theorem nameLe_total : ∀ x y : String × List (List String),
    (nameLe x y || nameLe y x) = true := by
  intro x y
  cases hx : lexLt y.1.data x.1.data with
  | false => simp [nameLe, hx]
  | true => simp [nameLe, hx, lexLt_asymm _ _ hx]

/-- The first of two options that is populated. -/
def firstSome (a b : Option String) : Option String :=
  match a with
  | some v => some v
  | none => b

/-- The trial one folder file contributes to participant `p`: its parsed
trial when the file is eligible, parses, and reports `p`. -/
def fileTrial? (p : Option String) (f : String × List (List String)) : Option Trial :=
  if isLock f.1 || !okExt f.1 then none
  else
    match read_single_trial_file f.2 with
    | .ok r => if r.1 = p then some r.2.2 else none
    | .error _ => none

/-- The viewport one folder file contributes to participant `p`. -/
def fileVP? (p : Option String) (f : String × List (List String)) : Option String :=
  if isLock f.1 || !okExt f.1 then none
  else
    match read_single_trial_file f.2 with
    | .ok r => if r.1 = p then r.2.1 else none
    | .error _ => none

/-- The cumulative effect of a run of folder files on one participant's
entry: trials are appended in file order, viewport and resolution are the
first non-None contributed viewport once the stored one is None. -/
def folderScan (p : Option String) (fs : List (String × List (List String))) :
    Option FolderEntry → Option FolderEntry
  | some e =>
    some { trials := e.trials ++ fs.filterMap (fileTrial? p),
           viewport := firstSome e.viewport (fs.findSome? (fileVP? p)),
           resolution := firstSome e.viewport (fs.findSome? (fileVP? p)) }
  | none =>
    if (fs.filterMap (fileTrial? p)).isEmpty then none
    else
      some { trials := fs.filterMap (fileTrial? p),
             viewport := fs.findSome? (fileVP? p),
             resolution := fs.findSome? (fileVP? p) }

theorem findSome?_cons_first {α : Type} (g : α → Option String) (f : α) (l : List α) :
    List.findSome? g (f :: l) = firstSome (g f) (List.findSome? g l) := by
  cases hgf : g f <;> simp [List.findSome?_cons, hgf, firstSome]

theorem folderScan_cons_none (p : Option String) (f : String × List (List String))
    (fs' : List (String × List (List String)))
    (ht : fileTrial? p f = none) (hv : fileVP? p f = none)
    (x : Option FolderEntry) :
    folderScan p (f :: fs') x = folderScan p fs' x := by
  cases x with
  | none =>
    simp only [folderScan]
    rw [List.filterMap_cons_none ht, findSome?_cons_first, hv]
    simp [firstSome]
  | some e =>
    simp only [folderScan]
    rw [List.filterMap_cons_none ht, findSome?_cons_first, hv]
    simp [firstSome]

theorem rfRun_char :
    ∀ (fs : List (String × List (List String)))
      (data data' : List (Option String × FolderEntry)),
      runRows rfStep data fs = .ok data' →
      resEqVp data →
      ∀ p, dictGet? data' p = folderScan p fs (dictGet? data p) := by
  intro fs
  induction fs with
  | nil =>
    intro data data' h hinv p
    rw [runRows_nil] at h
    cases h
    cases hg : dictGet? data p with
    | none => simp [folderScan]
    | some e =>
      have hrv := hinv p e hg
      obtain ⟨et, er, ev⟩ := e
      simp only [] at hrv
      subst hrv
      simp only [folderScan, List.filterMap_nil, List.findSome?_nil, List.append_nil]
      cases er with
      | none => rfl
      | some v => rfl
  | cons f fs' ih =>
    intro data data' h hinv p
    rw [runRows_cons] at h
    cases hstep : rfStep data f with
    | error e0 => rw [hstep] at h; cases h
    | ok data₁ =>
      rw [hstep] at h
      have hinv₁ : resEqVp data₁ := rfStep_resEqVp hstep hinv
      rw [ih data₁ data' h hinv₁ p]
      simp only [rfStep] at hstep
      by_cases hl : isLock f.1
      · rw [if_pos hl] at hstep
        cases hstep
        have ht : fileTrial? p f = none := by simp [fileTrial?, hl]
        have hv : fileVP? p f = none := by simp [fileVP?, hl]
        rw [folderScan_cons_none p f fs' ht hv]
      · rw [if_neg hl] at hstep
        by_cases hext : okExt f.1
        · rw [if_neg (by simp [hext])] at hstep
          cases hstf : read_single_trial_file f.2 with
          | error e0 => simp only [hstf] at hstep; cases hstep
          | ok r =>
            simp only [hstf] at hstep
            cases hstep
            have ht : fileTrial? p f = if r.1 = p then some r.2.2 else none := by
              simp [fileTrial?, hl, hext, hstf]
            have hv : fileVP? p f = if r.1 = p then r.2.1 else none := by
              simp [fileVP?, hl, hext, hstf]
            by_cases hpq : r.1 = p
            · subst hpq
              rw [if_pos rfl] at ht hv
              rw [rfUpdate_get_self]
              cases hg : dictGet? data r.1 with
              | some e =>
                have hrv := hinv r.1 e hg
                obtain ⟨et, er, ev⟩ := e
                simp only [] at hrv
                subst hrv
                simp only [Option.getD_some, folderScan, appendEntry, fillEntry,
                  List.filterMap_cons_some ht, findSome?_cons_first, hv]
                cases er with
                | none =>
                  simp [firstSome, List.append_assoc]
                | some v =>
                  simp [firstSome, List.append_assoc]
              | none =>
                simp only [Option.getD_none, folderScan, appendEntry, fillEntry,
                  List.filterMap_cons_some ht, findSome?_cons_first, hv]
                simp [firstSome, List.isEmpty_cons]
            · rw [if_neg hpq] at ht hv
              rw [rfUpdate_get_other data r.2.1 r.2.2 hpq]
              rw [folderScan_cons_none p f fs' ht hv]
        · rw [if_pos (by simp [hext])] at hstep
          cases hstep
          have ht : fileTrial? p f = none := by simp [fileTrial?, hext]
          have hv : fileVP? p f = none := by simp [fileVP?, hext]
          rw [folderScan_cons_none p f fs' ht hv]

/-- A per-trial file of participant A with no screen-bounds row, so its
parsed viewport is None. -/
def aFile : List (List String) :=
  [tHeader, ["A", "mouseview", "", "0", "0", "0", "0", "1", "2.0", "3.0"]]

/-- A later per-trial file of participant A whose screen-bounds row reports
800x600. -/
def bFile : List (List String) :=
  [tHeader, ["A", "zone", "screen", "0", "0", "800", "600", "1", "0", "0"]]

/-- C7 counterexample: the first file processed for A (a.xlsx) has viewport
None, yet the returned entry's resolution and viewport come from the second
file (b.xlsx): the claim that they are set from the first file processed for
the participant, ignoring later files, fails. -/
theorem C7_counterexample :
    (read_single_trial_file aFile).map (fun r => r.2.1) = .ok none ∧
    (read_folder [("a.xlsx", aFile), ("b.xlsx", bFile)]).map
        (fun d => (dictGet? d (some "A")).map (fun e => (e.resolution, e.viewport))) =
      .ok (some (some "800x600", some "800x600")) ∧
    (some "800x600" : Option String) ≠ none := by
  refine ⟨by decide, ?_, by decide⟩
  have hs : List.mergeSort [("a.xlsx", aFile), ("b.xlsx", bFile)] nameLe =
      [("a.xlsx", aFile), ("b.xlsx", bFile)] :=
    List.mergeSort_of_sorted (by decide)
  simp only [read_folder, hs]
  decide

/-- C7 amended: read_folder processes the eligible files in ascending
lexicographic filename order (the name-sorted list is Pairwise ordered and
is the processing order); a participant's trials are exactly the trials its
files contribute, in that order; resolution and viewport both equal the
FIRST non-None viewport among the participant's files in that order, not
necessarily the first file's. -/
theorem C7_folder_order_and_first_viewport :
    ∀ files data p e, read_folder files = .ok data → dictGet? data p = some e →
      (e.trials = (files.mergeSort nameLe).filterMap (fileTrial? p) ∧
       e.viewport = (files.mergeSort nameLe).findSome? (fileVP? p) ∧
       e.resolution = e.viewport) ∧
      (files.mergeSort nameLe).Pairwise (fun a b => nameLe a b = true) := by
  intro files data p e h he
  constructor
  · simp only [read_folder] at h
    cases hrun : runRows rfStep [] (files.mergeSort nameLe) with
    | error e0 => simp only [hrun] at h; cases h
    | ok st =>
      simp only [hrun] at h
      cases h
      rw [normalizeFolderData_id] at he
      have hc := rfRun_char (files.mergeSort nameLe) [] st hrun
        (fun q e0 hq => by rw [dictGet?_nil] at hq; cases hq) p
      rw [dictGet?_nil, he] at hc
      simp only [folderScan] at hc
      split at hc
      · cases hc
      · cases hc
        exact ⟨rfl, rfl, rfl⟩
  · exact List.sorted_mergeSort nameLe_trans nameLe_total files

/-- The trial parsed from `aFile`. -/
def aTrial : Trial := { msg := [], time := ["1"], x := ["2.0"], y := ["3.0"] }

/-- The trial parsed from `bFile`. -/
def bTrial : Trial :=
  { msg := [("1", "type=zone;zone=screen;zone_x=0;zone_y=0;zone_w=800;zone_h=600")]
    time := [], x := [], y := [] }

/-- A's folder entry after a.xlsx and b.xlsx. -/
def cFEntryAB : FolderEntry :=
  { trials := [aTrial, bTrial], resolution := some "800x600", viewport := some "800x600" }

/-- Witness for C7 on the two-file folder. -/
theorem C7_witness :
    (cFEntryAB.trials =
        ([("a.xlsx", aFile), ("b.xlsx", bFile)].mergeSort nameLe).filterMap
          (fileTrial? (some "A")) ∧
     cFEntryAB.viewport =
        ([("a.xlsx", aFile), ("b.xlsx", bFile)].mergeSort nameLe).findSome?
          (fileVP? (some "A")) ∧
     cFEntryAB.resolution = cFEntryAB.viewport) ∧
    ([("a.xlsx", aFile), ("b.xlsx", bFile)].mergeSort nameLe).Pairwise
      (fun a b => nameLe a b = true) := by
  have hs : List.mergeSort [("a.xlsx", aFile), ("b.xlsx", bFile)] nameLe =
      [("a.xlsx", aFile), ("b.xlsx", bFile)] :=
    List.mergeSort_of_sorted (by decide)
  exact C7_folder_order_and_first_viewport [("a.xlsx", aFile), ("b.xlsx", bFile)]
    [(some "A", cFEntryAB)] (some "A") cFEntryAB
    (by simp only [read_folder, hs]; decide) (by decide)

end Gorilla
